import Mathlib

/-!
Verification development for the modsec-log-review correlation and
aggregation engine.

The TypeScript sources are shallowly embedded as Lean definitions:

* JavaScript `Map` objects (which preserve insertion order, and on
  `set` of an existing key update the entry in place) are embedded as
  association lists whose entries carry their own key field, updated
  by `upsert` (get-then-set on a possibly missing key) and
  `updateIfPresent` (get-then-set only when the key is present).
* `Array.prototype.sort` is embedded as a stable insertion sort
  (`stableSort`): ECMAScript requires `sort` to be stable, and both
  comparators used by the sources order strictly by the numeric
  `hits` field.
* Promises are embedded by their observable outcome: a lookup service
  is a function `String → Option DnsRes` style oracle, and a promise
  that can never settle is represented by `none` / a `pending` marker.
* JavaScript `Date` parsing is embedded as an abstract parse function
  `String → Option Int` (`none` plays the role of `Invalid Date`,
  whose comparisons are all false, exactly like NaN comparisons).
* The crash of reading a property of `undefined` is embedded as
  `Except JSError`.
-/

/-- A rule-violation record as produced by the external parser
(`IRuleError` of modsec-log-parse): rule id, message, protected
hostname, client ip, offending payload (`data`) and raw timestamp. -/
structure RuleError where
  id : String
  msg : String
  hostname : String
  ip : String
  data : String
  date : String
deriving DecidableEq

/-- A normal-traffic record (`INormalLog`). -/
structure NormalLog where
  ip : String
  date : String
  statusCode : String
  method : String
  uri : String
  useragent : String
deriving DecidableEq

/-- JavaScript runtime errors thrown by the embedded code. -/
inductive JSError where
  | typeError (msg : String)
deriving DecidableEq

/-- `m.get(k)` followed by `m.set(k, f(got))` or `m.set(k, init)` on a
JavaScript `Map` whose values carry their key (`key v = k` for the
entry stored at `k`): update the entry in place when the key is
present, append a fresh entry otherwise. -/
def upsert {α : Type} (key : α → String) (k : String) (f : α → α) (init : α) :
    List α → List α
  | [] => [init]
  | h :: t => if key h = k then f h :: t else h :: upsert key k f init t

/-- `m.get(k)` followed by mutation only when the key is present. -/
def updateIfPresent {α : Type} (key : α → String) (k : String) (f : α → α) :
    List α → List α
  | [] => []
  | h :: t => if key h = k then f h :: t else h :: updateIfPresent key k f t

/-- `m.get(k)` on a JavaScript `Map` embedded as an association list. -/
def findByKey {α : Type} (key : α → String) (k : String) (l : List α) : Option α :=
  l.find? (fun x => key x == k)

/-- `Array.prototype.indexOf`: index of the first occurrence of `x`. -/
def idxOf {α : Type} [DecidableEq α] (x : α) : List α → Nat
  | [] => 0
  | h :: t => if h = x then 0 else idxOf x t + 1

/-- One step of a stable insertion sort: `x` is placed before the
first element not strictly below it, hence after earlier equals. -/
def insertSorted {α : Type} (lt : α → α → Bool) (x : α) : List α → List α
  | [] => [x]
  | h :: t => if lt h x then h :: insertSorted lt x t else x :: h :: t

/-- Stable sort with respect to the strict order `lt`; embeds
`Array.prototype.sort` with a comparator whose strict order is `lt`. -/
def stableSort {α : Type} (lt : α → α → Bool) : List α → List α
  | [] => []
  | x :: xs => insertSorted lt x (stableSort lt xs)

namespace FPFilter

/-- `class IP` of FPFilter.ts: per-ip statistics inside one rule
group. -/
structure IP where
  hits : Nat
  dataUsed : List String
  ip : String
deriving DecidableEq

/-- `new IP(ruleError)`. -/
def IP.ofError (r : RuleError) : IP :=
  { hits := 1, dataUsed := [r.data], ip := r.ip }

/-- `IP.collect`: push the payload, bump the hit count. -/
def IP.collect (s : IP) (r : RuleError) : IP :=
  { s with dataUsed := s.dataUsed ++ [r.data], hits := s.hits + 1 }

/-- `class Data` of FPFilter.ts: per-payload statistics inside one
rule group. -/
structure Data where
  ipList : List String
  hits : Nat
  date : String
  data : String
deriving DecidableEq

/-- `new Data(ruleError)`. -/
def Data.ofError (r : RuleError) : Data :=
  { ipList := [r.ip], hits := 1, date := r.date, data := r.data }

/-- `Data.collect`: push the ip and bump the hit count.  Note that the
source does not touch the `date` field here. -/
def Data.collect (s : Data) (r : RuleError) : Data :=
  { s with ipList := s.ipList ++ [r.ip], hits := s.hits + 1 }

/-- `class OrganizedError`: one rule group. -/
structure OrganizedError where
  msg : String
  id : String
  hits : Nat
  ipList : List IP
  dataUsed : List Data
deriving DecidableEq

/-- `OrganizedError.collect`: upsert the ip entry and the payload
entry, then increment the group hit counter. -/
def OrganizedError.collect (s : OrganizedError) (r : RuleError) : OrganizedError :=
  { s with
    ipList := upsert IP.ip r.ip (fun v => v.collect r) (IP.ofError r) s.ipList
    dataUsed := upsert Data.data r.data (fun v => v.collect r) (Data.ofError r) s.dataUsed
    hits := s.hits + 1 }

/-- `new OrganizedError(ruleError)`: the constructor sets `hits := 1`
and then calls `collect` on the same record (which increments `hits`
again). -/
def OrganizedError.ofError (r : RuleError) : OrganizedError :=
  OrganizedError.collect
    { msg := r.msg, id := r.id, hits := 1, ipList := [], dataUsed := [] } r

/-- The `ruleErrors.forEach` loop of the `FPFilter` constructor,
building the `errors` map keyed by rule id. -/
def organize (ruleErrors : List RuleError) : List OrganizedError :=
  ruleErrors.foldl
    (fun errors r =>
      upsert OrganizedError.id r.id (fun g => g.collect r)
        (OrganizedError.ofError r) errors)
    []

end FPFilter

/-- `class FPFilter`: protected hostname plus the per-rule groups. -/
structure FPFilter where
  hostname : String
  errors : List FPFilter.OrganizedError
deriving DecidableEq

/-- The `FPFilter` constructor.  `this.hostname = ruleErrors[0].hostname`
throws a `TypeError` when the input array is empty (`ruleErrors[0]` is
`undefined`); otherwise the `forEach` loop organizes every record. -/
def FPFilter.build (ruleErrors : List RuleError) : Except JSError FPFilter :=
  match ruleErrors with
  | [] => .error (.typeError "Cannot read property hostname of undefined")
  | r :: _ => .ok { hostname := r.hostname, errors := FPFilter.organize ruleErrors }

namespace FPReviewer

/-- The first line of `FPReviewer.getOverview`, showing the protected
hostname taken from the filter. -/
def overviewHeader (f : FPFilter) : String :=
  "Reviewing ModSec logs for " ++ f.hostname ++ "\nIPs\tHits\tRule  \tMessage\n"

/-- The ranked ip list of `FPReviewer.reviewIP`:
`sortedIPs.sort((x, y) => x.hits - y.hits).reverse()` — a stable
ascending sort by hit count, then reversed. -/
def sortedIPs (g : FPFilter.OrganizedError) : List FPFilter.IP :=
  (stableSort (fun x y => decide (x.hits < y.hits)) g.ipList).reverse

/-- The rows `reviewIP` actually renders: an entry is printed only when
`sortedIPs.indexOf(ip) <= 9`. -/
def renderedIPs (g : FPFilter.OrganizedError) : List FPFilter.IP :=
  (sortedIPs g).filter (fun x => decide (idxOf x (sortedIPs g) ≤ 9))

/-- The ranked payload list of `FPReviewer.reviewDataSent`:
`sortedData.sort((x, y) => (x.hits < y.hits ? -1 : 1))` — its strict
order is ascending hit count. -/
def sortedData (g : FPFilter.OrganizedError) : List FPFilter.Data :=
  stableSort (fun x y => decide (x.hits < y.hits)) g.dataUsed

/-- The rows `reviewDataSent` actually renders: an entry is printed
only when `sortedData.indexOf(data) <= 9`. -/
def renderedData (g : FPFilter.OrganizedError) : List FPFilter.Data :=
  (sortedData g).filter (fun x => decide (idxOf x (sortedData g) ≤ 9))

end FPReviewer

/-- A value stored in the `collected` cache of nslookup.ts, which has
type `Map<string, string | null>` but can also receive `undefined`
(`hostname[0]` of an empty array). -/
inductive CVal where
  | str (s : String)
  | null
  | undef
deriving DecidableEq

/-- The outcome the `dns.reverse` callback reports for one ip:
either an error, or no error together with a hostname array that may
be missing (`none`) — the two arguments of the Node callback. -/
inductive DnsRes where
  | err
  | ok (hostname : Option (List String))
deriving DecidableEq

/-- How the promise returned by `nsLookup` behaves: fulfilled with
`hostname[0]` (which is `undefined` — `none` — when the array is
empty), rejected, or never settled because neither `resolve` nor
`reject` is ever called. -/
inductive LookupOutcome where
  | resolved (v : Option String)
  | rejected
  | pending
deriving DecidableEq

/-- nslookup.ts `nsLookup`, with the module-level `collected` cache
passed explicitly and the DNS service as an oracle.  Returns the new
cache, the promise outcome, and whether `dns.reverse` was invoked.
The fast path fires only when `collected.get(ip) != undefined`, and
JavaScript loose equality makes that false for a cached `null` (and
for a cached `undefined`) as well as for a missing key. -/
def nsLookup (dns : String → DnsRes) (collected : List (String × CVal)) (ip : String) :
    List (String × CVal) × LookupOutcome × Bool :=
  match (findByKey Prod.fst ip collected).map Prod.snd with
  | some (.str s) => (collected, .resolved (some s), false)
  | _ =>
    match dns ip with
    | .err => (upsert Prod.fst ip (fun _ => (ip, .null)) (ip, .null) collected, .rejected, true)
    | .ok none => (collected, .pending, true)
    | .ok (some []) =>
        (upsert Prod.fst ip (fun _ => (ip, .undef)) (ip, .undef) collected, .resolved none, true)
    | .ok (some (h :: _)) =>
        (upsert Prod.fst ip (fun _ => (ip, .str h)) (ip, .str h) collected, .resolved (some h), true)

namespace LogFilter

/-- `type IP` of LogFilter.ts: the per-ip profile built by
`gatherIPs` and enriched by `filterNormalLogs`. -/
structure IP where
  brokenRules : List RuleError
  allActivities : List NormalLog
  ip : String
  rejectedRequests : List NormalLog
  useragent : String
  nsLookup : String
deriving DecidableEq

/-- The `newIP` object literal of `gatherIPs`.  `nsLookup` starts as
`''`; with lookups on, the fulfilment handler appends the resolved
hostname (a rejected lookup leaves it `''`, but then the whole batch
never resolves — see `gatherIPs`); with lookups off it is the
`'no-lookup'` sentinel.  The lookup service is an oracle
`String → Option String`; `none` means the lookup promise rejects. -/
def newIP (lookup : String → Option String) (doNS : Bool) (r : RuleError) : IP :=
  { brokenRules := [r], allActivities := [], ip := r.ip, rejectedRequests := []
    useragent := ""
    nsLookup := if doNS then (lookup r.ip).getD "" else "no-lookup" }

/-- `LogFilter.gatherIPs`.  One profile per distinct ip, with every
later record for a known ip appended to its `brokenRules`.  The
returned promise resolves only through
`Promise.all(lookups).then(() => resolve(ips))`: when any lookup
promise rejects, `Promise.all` rejects, the handler never runs, and
the promise never settles — embedded as `none`. -/
def gatherIPs (lookup : String → Option String) (doNS : Bool)
    (ruleErrors : List RuleError) : Option (List IP) :=
  let ips := ruleErrors.foldl
    (fun m r =>
      upsert IP.ip r.ip (fun p => { p with brokenRules := p.brokenRules ++ [r] })
        (newIP lookup doNS r) m)
    []
  if doNS && ips.any (fun p => (lookup p.ip).isNone) then none else some ips

/-- `LogFilter.filterNormalLogs`: overlay normal-traffic records onto
existing profiles only. -/
def filterNormalLogs (normalLogs : List NormalLog) (ips : List IP) : List IP :=
  normalLogs.foldl
    (fun m n =>
      updateIfPresent IP.ip n.ip
        (fun p =>
          { p with
            rejectedRequests :=
              if n.statusCode ≠ "200" then p.rejectedRequests ++ [n]
              else p.rejectedRequests
            useragent := if p.useragent.length = 0 then n.useragent else p.useragent
            allActivities := p.allActivities ++ [n] })
        m)
    ips

end LogFilter

/-- `interface RuleErrorCollection extends IRuleError`: the spread of
the first rule error seen for the id, plus the list of contributing
profiles. -/
structure RuleErrorCollection where
  id : String
  msg : String
  hostname : String
  ip : String
  data : String
  date : String
  ips : List LogFilter.IP
deriving DecidableEq

/-- `{...ruleError, ips: [recordedIP]}`. -/
def RuleErrorCollection.ofError (r : RuleError) (p : LogFilter.IP) : RuleErrorCollection :=
  { id := r.id, msg := r.msg, hostname := r.hostname, ip := r.ip,
    data := r.data, date := r.date, ips := [p] }

namespace LogFilter

/-- `LogFilter.filterErrorLogs`: group the profiles by rule id,
skipping an ip already recorded for that rule. -/
def filterErrorLogs (ruleErrors : List RuleError) (ips : List IP) :
    List RuleErrorCollection :=
  ruleErrors.foldl
    (fun errors r =>
      match findByKey RuleErrorCollection.id r.id errors, findByKey IP.ip r.ip ips with
      | some _, some recordedIP =>
          updateIfPresent RuleErrorCollection.id r.id
            (fun e =>
              if (e.ips.find? (fun x => x.ip == recordedIP.ip)).isSome then e
              else { e with ips := e.ips ++ [recordedIP] })
            errors
      | none, some recordedIP => errors ++ [RuleErrorCollection.ofError r recordedIP]
      | _, none => errors)
    []

/-- `LogFilter.filter`: gather profiles (joining all lookups), overlay
the normal logs, then regroup by rule.  `none` when the lookup batch
never resolves. -/
def filter (lookup : String → Option String) (doNS : Bool)
    (normalLogs : List NormalLog) (ruleErrors : List RuleError) :
    Option (List RuleErrorCollection) :=
  (gatherIPs lookup doNS ruleErrors).map
    (fun ips => filterErrorLogs ruleErrors (filterNormalLogs normalLogs ips))

end LogFilter

/-- JavaScript `Date` comparison `a <= b` where either side may be an
`Invalid Date` or `undefined` (embedded as `none`): any comparison
involving NaN is false. -/
def dle : Option Int → Option Int → Bool
  | some a, some b => decide (a ≤ b)
  | _, _ => false

namespace EntireLogReviewer

/-- The `first`/`last` scan of `EntireLogReviewer.getBreakdown`: over
the broken rules matching the inspected rule id, `first` is assigned
on the iteration with `i === 0` and `last` on every iteration.  The
date parser `dErr` embeds `new Date(ruleError.date)` (with `none` for
an unparseable date).  Both start out `undefined`. -/
def windowStep (dErr : String → Option Int) (a : Option Int × Option Int × Nat)
    (e : RuleError) : Option Int × Option Int × Nat :=
  ((if a.2.2 = 0 then dErr e.date else a.1), dErr e.date, a.2.2 + 1)

def windowScan (dErr : String → Option Int) (ms : List RuleError) :
    Option Int × Option Int :=
  let acc := ms.foldl (windowStep dErr) (none, none, 0)
  (acc.1, acc.2.1)

/-- The rejected-requests part of `EntireLogReviewer.getBreakdown`: a
rejected request is rendered when
`date <= last && date >= first`, where `date` is
`EntireLogReviewer.fixDate(rejected.date)` (embedded as the parse
function `dFix`). -/
def getBreakdownRejects (dErr dFix : String → Option Int)
    (p : LogFilter.IP) (ruleID : String) : List NormalLog :=
  let fl := windowScan dErr (p.brokenRules.filter (fun x => x.id == ruleID))
  p.rejectedRequests.filter (fun rj => dle (dFix rj.date) fl.2 && dle fl.1 (dFix rj.date))

end EntireLogReviewer

/-! Concrete records used to evaluate the embedded code at specific
inputs. -/

/-- A single rule error (claim C1 evaluation input). -/
def rc1 : RuleError :=
  { id := "942100", msg := "SQL Injection Attack Detected", hostname := "example.com",
    ip := "1.1.1.1", data := "a", date := "01/Jan/2020:00:00:00 +0000" }

/-- A rule error whose ip's reverse lookup will fail (claim C2). -/
def rc2 : RuleError :=
  { id := "920100", msg := "Invalid HTTP Request Line", hostname := "example.com",
    ip := "1.1.1.1", data := "x", date := "01/Jan/2020:00:00:00 +0000" }

/-- A reverse-lookup service whose promise rejects for every ip. -/
def failingLookup : String → Option String := fun _ => none

/-- A DNS service whose callback always reports an error. -/
def alwaysErrDns : String → DnsRes := fun _ => DnsRes.err

/-- A DNS service whose callback reports no error and no hostname
array. -/
def silentDns : String → DnsRes := fun _ => DnsRes.ok none

/-- First of two rule errors sharing a payload (claim C5). -/
def rc5a : RuleError :=
  { id := "942100", msg := "SQL Injection Attack Detected", hostname := "example.com",
    ip := "1.1.1.1", data := "payload", date := "01/Jan/2020:00:00:00 +0000" }

/-- Second occurrence of the same payload, one day later, from another
ip (claim C5). -/
def rc5b : RuleError :=
  { rc5a with ip := "2.2.2.2", date := "02/Jan/2020:00:00:00 +0000" }

/-- First of two rule errors with tied hit counts (claim C6). -/
def rc6a : RuleError :=
  { id := "942100", msg := "SQL Injection Attack Detected", hostname := "example.com",
    ip := "1.1.1.1", data := "a", date := "01/Jan/2020:00:00:00 +0000" }

/-- The tied second rule error, from an ip appearing later in the
input (claim C6). -/
def rc6b : RuleError :=
  { rc6a with ip := "2.2.2.2", data := "b" }

/-- A rule error for a concrete rendered group (claim C7 witness). -/
def rc7 : RuleError :=
  { id := "942100", msg := "SQL Injection Attack Detected", hostname := "example.com",
    ip := "1.1.1.1", data := "a", date := "01/Jan/2020:00:00:00 +0000" }

/-- The group the organizer builds from `rc7` alone. -/
def g7 : FPFilter.OrganizedError := FPFilter.OrganizedError.ofError rc7

/-- A rule error for the C4 witness. -/
def rc4 : RuleError :=
  { id := "942100", msg := "SQL Injection Attack Detected", hostname := "example.com",
    ip := "1.1.1.1", data := "a", date := "01/Jan/2020:00:00:00 +0000" }

/-- A toy timestamp parser used to evaluate the breakdown window at a
concrete profile (claim C8 witness). -/
def dParse : String → Option Int := fun s =>
  if s = "t0" then some 0 else if s = "t1" then some 1
  else if s = "t2" then some 2 else none

/-- First broken rule of the C8 witness profile, at time t0. -/
def e80 : RuleError :=
  { id := "920100", msg := "Invalid HTTP Request Line", hostname := "example.com",
    ip := "2.2.2.2", data := "x", date := "t0" }

/-- Second broken rule of the C8 witness profile, at time t2. -/
def e81 : RuleError :=
  { e80 with date := "t2" }

/-- A rejected request at time t1, inside the window (claim C8
witness). -/
def n8 : NormalLog :=
  { ip := "2.2.2.2", date := "t1", statusCode := "403", method := "GET",
    uri := "/", useragent := "curl" }

/-- The C8 witness profile. -/
def p8 : LogFilter.IP :=
  { brokenRules := [e80, e81], allActivities := [n8], ip := "2.2.2.2",
    rejectedRequests := [n8], useragent := "curl", nsLookup := "no-lookup" }

section SortLemmas

variable {α : Type}

/-- Membership in an insertion step. -/
theorem mem_insertSorted (lt : α → α → Bool) (x y : α) (s : List α) :
    y ∈ insertSorted lt x s ↔ y = x ∨ y ∈ s := by
  induction s with
  | nil => simp [insertSorted]
  | cons h t ih =>
    simp only [insertSorted]
    split
    · simp only [List.mem_cons, ih]
      tauto
    · simp only [List.mem_cons]

/-- An insertion step is a permutation step. -/
theorem insertSorted_perm (lt : α → α → Bool) (x : α) (s : List α) :
    (insertSorted lt x s).Perm (x :: s) := by
  induction s with
  | nil => simp [insertSorted]
  | cons h t ih =>
    simp only [insertSorted]
    split
    · exact (ih.cons h).trans (List.Perm.swap x h t)
    · exact List.Perm.refl _

/-- The stable sort permutes its input. -/
theorem stableSort_perm (lt : α → α → Bool) (l : List α) :
    (stableSort lt l).Perm l := by
  induction l with
  | nil => exact List.Perm.refl _
  | cons x xs ih =>
    exact (insertSorted_perm lt x (stableSort lt xs)).trans (ih.cons x)

variable (key : α → Nat)

/-- Inserting into a list that is non-decreasing on `key` keeps it
non-decreasing, for the comparator ordering strictly by `key`. -/
theorem insertSorted_pairwise (x : α) (s : List α)
    (hs : s.Pairwise (fun a b => key a ≤ key b)) :
    (insertSorted (fun a b => decide (key a < key b)) x s).Pairwise
      (fun a b => key a ≤ key b) := by
  induction s with
  | nil => simp [insertSorted]
  | cons h t ih =>
    rw [List.pairwise_cons] at hs
    simp only [insertSorted]
    split
    · rename_i hc
      rw [decide_eq_true_eq] at hc
      rw [List.pairwise_cons]
      refine ⟨?_, ih hs.2⟩
      intro b hb
      rcases (mem_insertSorted _ x b t).1 hb with rfl | hb
      · exact Nat.le_of_lt hc
      · exact hs.1 b hb
    · rename_i hc
      rw [decide_eq_true_eq, Nat.not_lt] at hc
      rw [List.pairwise_cons]
      refine ⟨?_, List.pairwise_cons.2 hs⟩
      intro b hb
      rcases List.mem_cons.1 hb with rfl | hb
      · exact hc
      · exact hc.trans (hs.1 b hb)

/-- The stable sort output is non-decreasing on `key`. -/
theorem stableSort_pairwise (l : List α) :
    (stableSort (fun a b => decide (key a < key b)) l).Pairwise
      (fun a b => key a ≤ key b) := by
  induction l with
  | nil => simp [stableSort]
  | cons x xs ih => exact insertSorted_pairwise key x _ ih

/-- Restricting an insertion step to one key value: the inserted
element lands in front of the survivors of its own key class, because
the insertion walks past strictly smaller keys only. -/
theorem filter_insertSorted (k : Nat) (x : α) (s : List α) :
    (insertSorted (fun a b => decide (key a < key b)) x s).filter
        (fun y => decide (key y = k)) =
      if key x = k then x :: s.filter (fun y => decide (key y = k))
      else s.filter (fun y => decide (key y = k)) := by
  induction s with
  | nil =>
    by_cases hx : key x = k
    · simp [insertSorted, hx]
    · simp [insertSorted, hx]
  | cons h t ih =>
    simp only [insertSorted]
    by_cases hc : key h < key x
    · rw [if_pos (decide_eq_true hc)]
      simp only [List.filter_cons, decide_eq_true_eq]
      by_cases hh : key h = k
      · by_cases hx : key x = k
        · omega
        · rw [ih]
          simp only [if_pos hh, if_neg hx]
      · rw [ih]
        simp only [if_neg hh]
    · rw [if_neg (by simpa using hc)]
      simp only [List.filter_cons, decide_eq_true_eq]

/-- Stability of the sort, phrased per key class: the sorted list and
the input list agree on every class of equal keys. -/
theorem stableSort_filter (k : Nat) (l : List α) :
    (stableSort (fun a b => decide (key a < key b)) l).filter
        (fun y => decide (key y = k)) =
      l.filter (fun y => decide (key y = k)) := by
  induction l with
  | nil => rfl
  | cons x xs ih =>
    simp only [stableSort]
    rw [filter_insertSorted key k x _, List.filter_cons]
    by_cases hx : key x = k
    · simp only [decide_eq_true_eq, if_pos hx, ih]
    · simp only [decide_eq_true_eq, if_neg hx, ih]

end SortLemmas

section IdxLemmas

variable {α : Type} [DecidableEq α]

/-- On a duplicate-free list, keeping the elements whose
`Array.prototype.indexOf` is below `n` is taking the first `n`. -/
theorem filter_idxOf_lt :
    ∀ (l : List α), l.Nodup → ∀ n : Nat,
      l.filter (fun x => decide (idxOf x l < n)) = l.take n := by
  intro l
  induction l with
  | nil => intro _ n; simp
  | cons h t ih =>
    intro hnd n
    cases n with
    | zero => simp
    | succ m =>
      rw [List.filter_cons]
      have hcong : ∀ x ∈ t,
          (decide (idxOf x (h :: t) < m + 1)) = (decide (idxOf x t < m)) := by
        intro x hx
        have hne : h ≠ x := by
          rintro rfl
          exact (List.nodup_cons.1 hnd).1 hx
        simp only [idxOf, if_neg hne]
        exact decide_eq_decide.2 (by omega)
      rw [List.filter_congr hcong, ih (List.nodup_cons.1 hnd).2 m]
      have hh : idxOf h (h :: t) < m + 1 := by
        simp [idxOf]
      rw [if_pos (by exact decide_eq_true hh), List.take_succ_cons]

end IdxLemmas

section UpsertLemmas

variable {α : Type} (key : α → String)

/-- Anything in an upsert result comes from the inserted entry, an
untouched entry, or an updated entry. -/
theorem mem_upsert (k : String) (f : α → α) (i : α) :
    ∀ (l : List α) (x : α), x ∈ upsert key k f i l →
      x = i ∨ x ∈ l ∨ ∃ y ∈ l, x = f y := by
  intro l
  induction l with
  | nil =>
    intro x hx
    simp only [upsert, List.mem_singleton] at hx
    exact Or.inl hx
  | cons h t ih =>
    intro x hx
    simp only [upsert] at hx
    split at hx
    · rcases List.mem_cons.1 hx with rfl | hx
      · exact Or.inr (Or.inr ⟨h, List.mem_cons_self h t, rfl⟩)
      · exact Or.inr (Or.inl (List.mem_cons_of_mem h hx))
    · rcases List.mem_cons.1 hx with rfl | hx
      · exact Or.inr (Or.inl (List.mem_cons_self x t))
      · rcases ih x hx with h1 | h1 | ⟨y, hy, h1⟩
        · exact Or.inl h1
        · exact Or.inr (Or.inl (List.mem_cons_of_mem h h1))
        · exact Or.inr (Or.inr ⟨y, List.mem_cons_of_mem h hy, h1⟩)

/-- Upserting with a key-preserving update keeps the keys pairwise
distinct. -/
theorem upsert_pairwise (k : String) (f : α → α) (i : α)
    (hf : ∀ y, key (f y) = key y) (hi : key i = k) :
    ∀ l : List α, l.Pairwise (fun a b => key a ≠ key b) →
      (upsert key k f i l).Pairwise (fun a b => key a ≠ key b) := by
  intro l
  induction l with
  | nil => intro _; simp [upsert]
  | cons h t ih =>
    intro hp
    rw [List.pairwise_cons] at hp
    simp only [upsert]
    split
    · rw [List.pairwise_cons]
      refine ⟨?_, hp.2⟩
      intro b hb
      rw [hf]
      exact hp.1 b hb
    · rename_i hc
      rw [List.pairwise_cons]
      refine ⟨?_, ih hp.2⟩
      intro b hb
      rcases mem_upsert key k f i t b hb with rfl | hb | ⟨y, hy, rfl⟩
      · rw [hi]; exact hc
      · exact hp.1 b hb
      · rw [hf]; exact hp.1 y hy

end UpsertLemmas

/-- Every group produced by the `FPFilter` organizing pass satisfies
any property preserved by the group constructor and by `collect`. -/
theorem organize_invariant (P : FPFilter.OrganizedError → Prop)
    (h0 : ∀ r, P (FPFilter.OrganizedError.ofError r))
    (h1 : ∀ g r, P g → P (g.collect r)) :
    ∀ (es : List RuleError) (g : FPFilter.OrganizedError),
      g ∈ FPFilter.organize es → P g := by
  have main : ∀ (es : List RuleError) (acc : List FPFilter.OrganizedError),
      (∀ g ∈ acc, P g) →
      ∀ g ∈ es.foldl
        (fun errors r =>
          upsert FPFilter.OrganizedError.id r.id (fun g => g.collect r)
            (FPFilter.OrganizedError.ofError r) errors) acc, P g := by
    intro es
    induction es with
    | nil => intro acc hacc g hg; exact hacc g hg
    | cons r rs ih =>
      intro acc hacc g hg
      refine ih _ ?_ g hg
      intro x hx
      rcases mem_upsert FPFilter.OrganizedError.id r.id _ _ acc x hx with
        rfl | hx | ⟨y, hy, rfl⟩
      · exact h0 r
      · exact hacc x hx
      · exact h1 y r (hacc y hy)
  intro es g hg
  exact main es [] (by simp) g hg

/-- The per-group ip map and payload map have pairwise-distinct keys:
they really are maps. -/
theorem organize_keys (es : List RuleError) :
    ∀ g ∈ FPFilter.organize es,
      g.ipList.Pairwise (fun a b => a.ip ≠ b.ip) ∧
      g.dataUsed.Pairwise (fun a b => a.data ≠ b.data) := by
  apply organize_invariant
    (fun g => g.ipList.Pairwise (fun a b => a.ip ≠ b.ip) ∧
      g.dataUsed.Pairwise (fun a b => a.data ≠ b.data))
  · intro r
    constructor
    · simp [FPFilter.OrganizedError.ofError, FPFilter.OrganizedError.collect, upsert]
    · simp [FPFilter.OrganizedError.ofError, FPFilter.OrganizedError.collect, upsert]
  · intro g r hg
    constructor
    · exact upsert_pairwise FPFilter.IP.ip r.ip (fun v => v.collect r)
        (FPFilter.IP.ofError r) (fun y => rfl) rfl g.ipList hg.1
    · exact upsert_pairwise FPFilter.Data.data r.data (fun v => v.collect r)
        (FPFilter.Data.ofError r) (fun y => rfl) rfl g.dataUsed hg.2

/-- The ip entries of a produced group are pairwise distinct values. -/
theorem organize_ipList_nodup {es : List RuleError} {g : FPFilter.OrganizedError}
    (hg : g ∈ FPFilter.organize es) : g.ipList.Nodup :=
  ((organize_keys es g hg).1).imp (fun hne heq => hne (by rw [heq]))

/-- The payload entries of a produced group are pairwise distinct
values. -/
theorem organize_dataUsed_nodup {es : List RuleError} {g : FPFilter.OrganizedError}
    (hg : g ∈ FPFilter.organize es) : g.dataUsed.Nodup :=
  ((organize_keys es g hg).2).imp (fun hne heq => hne (by rw [heq]))

section WindowLemmas

/-- Once the counter is positive, the `first` slot of the breakdown
scan is frozen. -/
theorem windowScan_fold_fst (dErr : String → Option Int) :
    ∀ (ms : List RuleError) (f0 l0 : Option Int) (n : Nat), n ≠ 0 →
      (ms.foldl (EntireLogReviewer.windowStep dErr) (f0, l0, n)).1 = f0 := by
  intro ms
  induction ms with
  | nil => intro f0 l0 n _; rfl
  | cons e t ih =>
    intro f0 l0 n hn
    rw [List.foldl_cons]
    show (t.foldl (EntireLogReviewer.windowStep dErr)
      ((if n = 0 then dErr e.date else f0), dErr e.date, n + 1)).1 = f0
    rw [if_neg hn]
    exact ih f0 _ (n + 1) (Nat.succ_ne_zero n)

/-- On a non-empty scan, the `last` slot ends as the date of the last
scanned record, whatever the accumulator started as. -/
theorem windowScan_fold_snd (dErr : String → Option Int) :
    ∀ (ms : List RuleError) (f0 l0 : Option Int) (n : Nat), ms ≠ [] →
      (ms.foldl (EntireLogReviewer.windowStep dErr) (f0, l0, n)).2.1 =
        ms.getLast?.bind (fun e => dErr e.date) := by
  intro ms
  induction ms with
  | nil => intro f0 l0 n h; exact absurd rfl h
  | cons e t ih =>
    intro f0 l0 n _
    rw [List.foldl_cons]
    cases t with
    | nil => simp [EntireLogReviewer.windowStep]
    | cons e2 t2 =>
      rw [ih _ _ _ (List.cons_ne_nil e2 t2), List.getLast?_cons_cons]

/-- `first` is the date of the first matching broken rule. -/
theorem windowScan_fst (dErr : String → Option Int) (ms : List RuleError) :
    (EntireLogReviewer.windowScan dErr ms).1 =
      ms.head?.bind (fun e => dErr e.date) := by
  cases ms with
  | nil => rfl
  | cons e t =>
    show (List.foldl (EntireLogReviewer.windowStep dErr) (none, none, 0) (e :: t)).1 = _
    rw [List.foldl_cons]
    show (t.foldl (EntireLogReviewer.windowStep dErr)
      ((if 0 = 0 then dErr e.date else none), dErr e.date, 0 + 1)).1 = _
    rw [if_pos rfl]
    rw [windowScan_fold_fst dErr t (dErr e.date) (dErr e.date) 1 Nat.one_ne_zero]
    rfl

/-- `last` is the date of the last matching broken rule. -/
theorem windowScan_snd (dErr : String → Option Int) (ms : List RuleError) :
    (EntireLogReviewer.windowScan dErr ms).2 =
      ms.getLast?.bind (fun e => dErr e.date) := by
  cases ms with
  | nil => rfl
  | cons e t =>
    show (List.foldl (EntireLogReviewer.windowStep dErr) (none, none, 0) (e :: t)).2.1 = _
    rw [windowScan_fold_snd dErr (e :: t) none none 0 (List.cons_ne_nil e t)]

/-- The embedded date comparison is true exactly when both sides are
valid dates in order. -/
theorem dle_eq_true {a b : Option Int} :
    dle a b = true ↔ ∃ x y, a = some x ∧ b = some y ∧ x ≤ y := by
  cases a <;> cases b <;> simp [dle]

end WindowLemmas

/-- C1: the sum of group hit counts does NOT equal the number of input
records.  The `OrganizedError` constructor initializes `hits` to 1 and
then calls `collect` on the same record, which increments `hits`
again, so a single input record already yields a group hit count of 2:
the code over-counts every group by one. -/
theorem c1_group_hits_overcount :
    ((FPFilter.organize [rc1]).map (fun g => g.hits)).sum ≠ [rc1].length ∧
    (FPFilter.organize [rc1]).map (fun g => g.hits) = [2] := by
  constructor
  · decide
  · rfl

/-- C2: a single rejected reverse lookup is fatal to the aggregation.
With lookups enabled and a lookup service that rejects, `Promise.all`
in `gatherIPs` rejects, its fulfilment handler never runs, and
`LogFilter.filter` never settles (`none`); the same input with lookups
disabled produces a report. -/
theorem c2_lookup_failure_fatal :
    LogFilter.filter failingLookup true [] [rc2] = none ∧
    (LogFilter.filter failingLookup false [] [rc2]).isSome = true := by
  exact ⟨rfl, rfl⟩

/-- C3: after a failed first lookup the cache does hold the explicit
`null` marker, but a second call for the same ip still invokes
`dns.reverse` (the returned flag is `true`), because
`result != undefined` is loose equality and is false for `null`. -/
theorem c3_null_marker_does_not_prevent_relookup :
    (nsLookup alwaysErrDns [] "1.1.1.1").1 = [("1.1.1.1", CVal.null)] ∧
    (nsLookup alwaysErrDns [("1.1.1.1", CVal.null)] "1.1.1.1").2.2 = true ∧
    (nsLookup alwaysErrDns [("1.1.1.1", CVal.null)] "1.1.1.1").2.1 =
      LookupOutcome.rejected := by
  exact ⟨rfl, rfl, rfl⟩

/-- C4 counterexample: on an empty input the aggregation does not fail
with a descriptive `EmptyInputError` — it crashes with the `TypeError`
of reading `hostname` of `undefined`. -/
theorem c4_empty_input_opaque_typeerror :
    FPFilter.build [] =
      Except.error (JSError.typeError "Cannot read property hostname of undefined") := by
  rfl

/-- C4 (amended): for every non-empty input the aggregation does not
fail. -/
theorem c4_nonempty_no_failure :
    ∀ es : List RuleError, es ≠ [] → ∃ f, FPFilter.build es = Except.ok f := by
  intro es h
  cases es with
  | nil => exact absurd rfl h
  | cons r t => exact ⟨_, rfl⟩

/-- C4 witness: the amended statement at a concrete one-record
input. -/
theorem c4_nonempty_no_failure_witness :
    ∃ f, FPFilter.build [rc4] = Except.ok f :=
  c4_nonempty_no_failure [rc4] (List.cons_ne_nil rc4 [])

/-- C5: the payload entry's `date` is NOT updated to the later date:
after a second occurrence of the same payload one day later, the
stored date is still the first record's date (`Data.collect` never
touches `date`, contradicting the class's own "last date"
documentation). -/
theorem c5_last_seen_date_not_updated :
    (FPFilter.organize [rc5a, rc5b]).map
        (fun g => g.dataUsed.map (fun d => (d.date, d.hits))) =
      [[("01/Jan/2020:00:00:00 +0000", 2)]] ∧
    rc5b.date ≠ rc5a.date := by
  constructor
  · rfl
  · decide

/-- C6 counterexample: two ips with tied hit counts, "1.1.1.1" first
in the input, render as "2.2.2.2" first — the stable ascending sort
followed by `reverse()` puts tied ips in REVERSE input order. -/
theorem c6_ip_ties_render_reversed :
    (FPFilter.organize [rc6a, rc6b]).map
        (fun g => (FPReviewer.renderedIPs g).map (fun x => (x.ip, x.hits))) =
      [[("2.2.2.2", 1), ("1.1.1.1", 1)]] ∧
    rc6a.ip = "1.1.1.1" ∧ rc6b.ip = "2.2.2.2" := by
  exact ⟨rfl, rfl, rfl⟩

/-- C6 (amended): within every hit-count tie class, the ranked payload
list keeps the payload map's insertion order (first appearance in the
input), while the ranked ip list is the REVERSE of the ip map's
insertion order. -/
theorem c6_tie_break_order :
    ∀ (g : FPFilter.OrganizedError) (k : Nat),
      (FPReviewer.sortedIPs g).filter (fun x => decide (x.hits = k)) =
        (g.ipList.filter (fun x => decide (x.hits = k))).reverse ∧
      (FPReviewer.sortedData g).filter (fun x => decide (x.hits = k)) =
        g.dataUsed.filter (fun x => decide (x.hits = k)) := by
  intro g k
  constructor
  · unfold FPReviewer.sortedIPs
    rw [List.filter_reverse, stableSort_filter FPFilter.IP.hits k g.ipList]
  · exact stableSort_filter FPFilter.Data.hits k g.dataUsed

/-- C7: for every group the organizer produces, the rendered ip rows
are non-increasing in hit count, the rendered payload rows are
non-decreasing in hit count, and both rendered lists have at most 10
rows. -/
theorem c7_rendered_ranking_and_cap :
    ∀ (es : List RuleError) (g : FPFilter.OrganizedError),
      g ∈ FPFilter.organize es →
      (FPReviewer.renderedIPs g).Pairwise (fun a b => b.hits ≤ a.hits) ∧
      (FPReviewer.renderedData g).Pairwise (fun a b => a.hits ≤ b.hits) ∧
      (FPReviewer.renderedIPs g).length ≤ 10 ∧
      (FPReviewer.renderedData g).length ≤ 10 := by
  intro es g hg
  have hipnd : (FPReviewer.sortedIPs g).Nodup := by
    unfold FPReviewer.sortedIPs
    exact (List.reverse_perm _).symm.nodup
      ((stableSort_perm _ g.ipList).symm.nodup (organize_ipList_nodup hg))
  have hdnd : (FPReviewer.sortedData g).Nodup :=
    (stableSort_perm _ g.dataUsed).symm.nodup (organize_dataUsed_nodup hg)
  have hipsorted : (FPReviewer.sortedIPs g).Pairwise (fun a b => b.hits ≤ a.hits) := by
    unfold FPReviewer.sortedIPs
    exact List.pairwise_reverse.2 (stableSort_pairwise FPFilter.IP.hits g.ipList)
  have hdsorted : (FPReviewer.sortedData g).Pairwise (fun a b => a.hits ≤ b.hits) :=
    stableSort_pairwise FPFilter.Data.hits g.dataUsed
  have hiplen : FPReviewer.renderedIPs g = (FPReviewer.sortedIPs g).take 10 := by
    unfold FPReviewer.renderedIPs
    have hpq : ∀ x ∈ FPReviewer.sortedIPs g,
        (decide (idxOf x (FPReviewer.sortedIPs g) ≤ 9)) =
          (decide (idxOf x (FPReviewer.sortedIPs g) < 10)) :=
      fun x _ => decide_eq_decide.2 (by omega)
    rw [List.filter_congr hpq]
    exact filter_idxOf_lt (FPReviewer.sortedIPs g) hipnd 10
  have hdlen : FPReviewer.renderedData g = (FPReviewer.sortedData g).take 10 := by
    unfold FPReviewer.renderedData
    have hpq : ∀ x ∈ FPReviewer.sortedData g,
        (decide (idxOf x (FPReviewer.sortedData g) ≤ 9)) =
          (decide (idxOf x (FPReviewer.sortedData g) < 10)) :=
      fun x _ => decide_eq_decide.2 (by omega)
    rw [List.filter_congr hpq]
    exact filter_idxOf_lt (FPReviewer.sortedData g) hdnd 10
  refine ⟨?_, ?_, ?_, ?_⟩
  · exact hipsorted.sublist (List.filter_sublist _)
  · exact hdsorted.sublist (List.filter_sublist _)
  · rw [hiplen, List.length_take]
    exact Nat.min_le_left _ _
  · rw [hdlen, List.length_take]
    exact Nat.min_le_left _ _

/-- C7 witness: the ranking-and-cap statement at the concrete group
built from `rc7`. -/
theorem c7_rendered_ranking_and_cap_witness :
    (FPReviewer.renderedIPs g7).Pairwise (fun a b => b.hits ≤ a.hits) ∧
    (FPReviewer.renderedData g7).Pairwise (fun a b => a.hits ≤ b.hits) ∧
    (FPReviewer.renderedIPs g7).length ≤ 10 ∧
    (FPReviewer.renderedData g7).length ≤ 10 :=
  c7_rendered_ranking_and_cap [rc7] g7 (by decide)

/-- C8: every rejected request the breakdown renders for an ip/rule
pair carries a valid timestamp lying between the date of the first and
the date of the last broken-rule record for that pair, inclusive. -/
theorem c8_rejects_within_window :
    ∀ (dErr dFix : String → Option Int) (p : LogFilter.IP) (q : String)
      (rj : NormalLog),
      rj ∈ EntireLogReviewer.getBreakdownRejects dErr dFix p q →
      ∃ f l a b c,
        (p.brokenRules.filter (fun x => x.id == q)).head? = some f ∧
        (p.brokenRules.filter (fun x => x.id == q)).getLast? = some l ∧
        dErr f.date = some a ∧ dErr l.date = some b ∧
        dFix rj.date = some c ∧ a ≤ c ∧ c ≤ b := by
  intro dErr dFix p q rj h
  simp only [EntireLogReviewer.getBreakdownRejects] at h
  rw [List.mem_filter] at h
  obtain ⟨hmem, hguard⟩ := h
  rw [Bool.and_eq_true] at hguard
  obtain ⟨hg1, hg2⟩ := hguard
  obtain ⟨c, b, hc, hb, hcb⟩ := dle_eq_true.1 hg1
  obtain ⟨a, c2, ha, hc2, hac⟩ := dle_eq_true.1 hg2
  rw [windowScan_snd] at hb
  rw [windowScan_fst] at ha
  obtain ⟨l, hl, hlb⟩ := Option.bind_eq_some.1 hb
  obtain ⟨f, hf, hfa⟩ := Option.bind_eq_some.1 ha
  rw [hc] at hc2
  obtain rfl := Option.some.inj hc2
  exact ⟨f, l, a, b, c, hf, hl, hfa, hlb, hc, hac, hcb⟩

/-- C8 witness: the window statement at a concrete profile with
broken rules at times t0 and t2 and a rejected request at t1. -/
theorem c8_rejects_within_window_witness :
    ∃ f l a b c,
      (p8.brokenRules.filter (fun x => x.id == "920100")).head? = some f ∧
      (p8.brokenRules.filter (fun x => x.id == "920100")).getLast? = some l ∧
      dParse f.date = some a ∧ dParse l.date = some b ∧
      dParse n8.date = some c ∧ a ≤ c ∧ c ≤ b :=
  c8_rejects_within_window dParse dParse p8 "920100" n8 (by decide)

/-- C9: for every non-empty input the hostname in the report header
is the hostname field of the FIRST record, whatever the later records
carry. -/
theorem c9_header_hostname_is_first_record :
    ∀ (r : RuleError) (es : List RuleError),
      (FPFilter.build (r :: es)).map (fun f => FPReviewer.overviewHeader f) =
        Except.ok ("Reviewing ModSec logs for " ++ r.hostname ++
          "\nIPs\tHits\tRule  \tMessage\n") := by
  intro r es
  rfl

/-- C10 counterexample: when the DNS callback reports no error and no
hostname array, neither `resolve` nor `reject` is called and the
promise never settles. -/
theorem c10_missing_hostname_never_settles :
    (nsLookup silentDns [] "1.1.1.1").2.1 = LookupOutcome.pending := by
  rfl

/-- C10 (amended): the promise fails to settle exactly when the cache
holds no string for the ip (the fast path needs a cached string) and
the callback reports no error together with a missing hostname array;
in every other case — error, non-empty hostname array, or even an
empty hostname array (truthy in JavaScript, resolving with
`hostname[0]` = undefined) — it settles. -/
theorem c10_settles_iff :
    ∀ (dns : String → DnsRes) (cache : List (String × CVal)) (ip : String),
      (nsLookup dns cache ip).2.1 = LookupOutcome.pending ↔
        (∀ s, (findByKey Prod.fst ip cache).map Prod.snd ≠ some (CVal.str s)) ∧
          dns ip = DnsRes.ok none := by
  intro dns cache ip
  unfold nsLookup
  cases hfind : (findByKey Prod.fst ip cache).map Prod.snd with
  | none =>
    cases hdns : dns ip with
    | err => simp
    | ok hs =>
      cases hs with
      | none => simp
      | some l => cases l <;> simp
  | some v =>
    cases v with
    | str s => simp
    | null =>
      cases hdns : dns ip with
      | err => simp
      | ok hs =>
        cases hs with
        | none => simp
        | some l => cases l <;> simp
    | undef =>
      cases hdns : dns ip with
      | err => simp
      | ok hs =>
        cases hs with
        | none => simp
        | some l => cases l <;> simp
